import Mathlib

/-!
Verification of the dynamo-ring client against its specification.

The development shallowly embeds the two source files of the repository:

* `util/util.go` — the command tokenizer `SafeSplit` and the version-vector
  (`VectorClock`) structure with its `Update` and `Compare` operations.
* the CLI client file — the `SwimringClient` structure with its constructor,
  level setters and the `Get`/`Put`/`Delete`/`Stat` operations.

Go strings are modelled as `List Char`; Go `int` counters as `Int`; the Go
`map[string]*ClockEntry` as an association list with no duplicate keys
(`NodupKeys`).  The informational `Updated : time.Time` field of a clock
entry is not modelled: no claim and no ordering decision reads it.
-/

/-- The single-quote character, written by code point to keep source tidy. -/
def squoteChar : Char := Char.ofNat 39

/-- The double-quote character. -/
def dquoteChar : Char := Char.ofNat 34

/-- Embedding of Go `strings.Split(s, " ")`: split at every single space,
keeping empty fields (so `""` splits to `[""]` and `"a  b"` to
`["a", "", "b"]`). -/
def splitOnSpace : List Char → List (List Char)
  | [] => [[]]
  | c :: rest =>
    if c = ' ' then
      [] :: splitOnSpace rest
    else
      match splitOnSpace rest with
      | [] => [[c]]
      | t :: ts => (c :: t) :: ts

/-- The loop state of `SafeSplit`: the accumulated `result`, the pending
open quote character (`inquote`, `none` when outside a quoted span, as the
empty string is in Go), and the pending quoted `block`. -/
structure SplitState where
  result : List (List Char)
  inquote : Option Char
  block : List Char
deriving Repr, DecidableEq

/-- The initial state of the `SafeSplit` loop: `result` and `block` empty,
no open quote. -/
def initSplitState : SplitState := ⟨[], none, []⟩

/-- One iteration of the `SafeSplit` loop body on token `i`
(`util/util.go` lines 55-73).  Outside a quote, a token whose first
character is a quote opens a span (storing its tail plus a space as the
block) and any other token is appended to the result.  Inside a quote open
with character `q`, a token ending in `q` closes the span (the block plus
the token minus its final character is appended to the result) and any
other token is appended to the block with a trailing space. -/
def splitStep (st : SplitState) (i : List Char) : SplitState :=
  match st.inquote with
  | none =>
    match i.head? with
    | some c =>
      if c = squoteChar ∨ c = dquoteChar then
        { st with inquote := some c, block := i.tail ++ [' '] }
      else
        { st with result := st.result ++ [i] }
    | none => { st with result := st.result ++ [i] }
  | some q =>
    if i.getLast? = some q then
      { result := st.result ++ [st.block ++ i.dropLast], inquote := none, block := [] }
    else
      { st with block := st.block ++ i ++ [' '] }

/-- Embedding of `SafeSplit` (`util/util.go` lines 48-76): split the line on
single spaces and run the quote-handling loop; the final pending block (an
unterminated quote) is not part of the returned result, exactly as in the
source where only the closing branch appends `block` to `result`. -/
def SafeSplit (s : List Char) : List (List Char) :=
  ((splitOnSpace s).foldl splitStep initSplitState).result

/-- A vector clock: an association list from node ID to counter.  The Go
`Entries` field is `map[string]*ClockEntry`; a map has unique keys, which
theorems state as a `NodupKeys` hypothesis where they need it. -/
abbrev VectorClock : Type := List (String × Int)

/-- The Go map has no duplicate keys. -/
def NodupKeys (vc : VectorClock) : Prop := (vc.map Prod.fst).Nodup

instance (vc : VectorClock) : Decidable (NodupKeys vc) := by
  unfold NodupKeys
  infer_instance

/-- Every counter of the vector is at least `1`: the invariant every clock
reachable through `Update` satisfies, since entries are created with
counter `1` and only ever incremented. -/
def PosCounters (vc : VectorClock) : Prop := ∀ e ∈ vc, 1 ≤ e.2

instance (vc : VectorClock) : Decidable (PosCounters vc) := by
  unfold PosCounters
  infer_instance

/-- Map lookup: `vc.Entries[nodeID]`, first matching key. -/
def VectorClock.lookup : VectorClock → String → Option Int
  | [], _ => none
  | (m, c) :: rest, n => if m = n then some c else VectorClock.lookup rest n

/-- The effective counter of a node: its entry if present, else `0`
(the absence-is-zero reading used by the specification). -/
def counterOf (vc : VectorClock) (n : String) : Int :=
  (VectorClock.lookup vc n).getD 0

/-- Embedding of `(*VectorClock).Update` (`util/util.go` lines 98-109):
increment the counter of an existing entry for `nodeID`, or create a new
entry with counter `1`.  The `Updated` timestamp the source also writes is
informational and not modelled. -/
def VectorClock.Update : VectorClock → String → VectorClock
  | [], nodeID => [(nodeID, 1)]
  | (m, c) :: rest, nodeID =>
    if m = nodeID then (m, c + 1) :: rest
    else (m, c) :: VectorClock.Update rest nodeID

/-- The `isOlder` flag computed by the first loop of
`(*VectorClock).Compare` (`util/util.go` lines 116-127): set when some
entry of `other` has a strictly larger counter than the matching entry of
`vc`, or has no matching entry in `vc` at all. -/
def isOlderFlag (vc other : VectorClock) : Bool :=
  other.any fun e =>
    match VectorClock.lookup vc e.1 with
    | some c => decide (c < e.2)
    | none => true

/-- The part of the `isNewer` flag set by the first loop of `Compare`:
some entry of `other` has a strictly smaller counter than the matching
entry of `vc`. -/
def isNewerFirstFlag (vc other : VectorClock) : Bool :=
  other.any fun e =>
    match VectorClock.lookup vc e.1 with
    | some c => decide (e.2 < c)
    | none => false

/-- The part of the `isNewer` flag set by the second loop of `Compare`
(`util/util.go` lines 129-133): some node of `vc` is absent from `other`. -/
def isNewerSecondFlag (vc other : VectorClock) : Bool :=
  vc.any fun e => (VectorClock.lookup other e.1).isNone

/-- The full `isNewer` flag of `Compare`. -/
def isNewerFlag (vc other : VectorClock) : Bool :=
  isNewerFirstFlag vc other || isNewerSecondFlag vc other

/-- Embedding of `(*VectorClock).Compare` (`util/util.go` lines 112-141):
accumulate the `isNewer` and `isOlder` flags over the two entry maps (the
loops only ever set the flags to `true`, so the fold order of the Go map
iteration is irrelevant) and classify. -/
def VectorClock.Compare (vc other : VectorClock) : String :=
  if isNewerFlag vc other && isOlderFlag vc other then "CONCURRENT"
  else if isNewerFlag vc other then "NEWER"
  else if isOlderFlag vc other then "OLDER"
  else "EQUAL"

example : SafeSplit (String.toList "get key1") =
    [String.toList "get", String.toList "key1"] := by decide

example : SafeSplit (String.toList "put \"hello world\" value") =
    [String.toList "put", String.toList "hello world", String.toList "value"] := by decide

example : SafeSplit (String.toList "get \"hi\"") = [String.toList "get"] := by decide

example : SafeSplit (String.toList "put \"hello world") = [String.toList "put"] := by decide

example : VectorClock.Compare [("a", 2), ("b", 1)] [("a", 1), ("c", 1)] = "CONCURRENT" := by
  decide

example : VectorClock.Compare [("a", 2)] [("a", 2)] = "EQUAL" := by decide

example : VectorClock.Compare [("a", 2)] [("a", 1)] = "NEWER" := by decide

example : VectorClock.Compare [] [("a", 1)] = "OLDER" := by decide

/-! ## Specification-side comparison predicates

These follow the wording of the specification (its absence-is-zero
definitions of EQUAL / NEWER / OLDER / CONCURRENT), to be compared with the
source-derived `VectorClock.Compare`. -/

/-- Spec wording: two vectors are EQUAL iff for every node present in
either vector the counters match, a node absent from one vector counting
as counter `0`. -/
def specEQUAL (a b : VectorClock) : Prop :=
  ∀ n, counterOf a n = counterOf b n

/-- Spec wording: `a` is NEWER than `b` iff for every node `a`'s counter
(absent = 0) is at least `b`'s, and at least one is strictly greater. -/
def specNEWER (a b : VectorClock) : Prop :=
  (∀ n, counterOf b n ≤ counterOf a n) ∧ ∃ n, counterOf b n < counterOf a n

/-- Spec wording: the vectors differ but neither strict order holds. -/
def specCONCURRENT (a b : VectorClock) : Prop :=
  ¬ specEQUAL a b ∧ ¬ specNEWER a b ∧ ¬ specNEWER b a

/-! ## The CLI client

Embedding of the `SwimringClient` of the unnamed CLI source file.  The
remote side of a connected `rpc.Client` is modelled as a record of one
handler per service method, each free to answer or to fail; an absent
connection (`nil` in Go) is `none`.  Each operation returns, besides its
Go results, the client value after the call (the methods assign no field,
so it is always the receiver itself) and the list of service methods
actually invoked on the connection, so that "no remote call is issued" is
a provable statement. -/

/-- Go constant `ONE`. -/
def ONE : String := "ONE"

/-- Go constant `QUORUM`. -/
def QUORUM : String := "QUORUM"

/-- Go constant `ALL`, the default consistency level of a new client. -/
def ALL : String := "ALL"

/-- Go constant `GetOp`, the service method name for Get. -/
def GetOp : String := "SwimRing.Get"

/-- Go constant `PutOp`, the service method name for Put. -/
def PutOp : String := "SwimRing.Put"

/-- Go constant `DeleteOp`, the service method name for Delete. -/
def DeleteOp : String := "SwimRing.Delete"

/-- Go constant `StatOp`, the service method name for Stat. -/
def StatOp : String := "SwimRing.Stat"

/-- Payload of Get. -/
structure GetRequest where
  level : String
  key : String

/-- Payload of the response of Get. -/
structure GetResponse where
  key : String
  value : String

/-- Payload of Put. -/
structure PutRequest where
  level : String
  key : String
  value : String

/-- Payload of the response of Put. -/
structure PutResponse where

/-- Payload of Delete. -/
structure DeleteRequest where
  level : String
  key : String

/-- Payload of the response of Delete. -/
structure DeleteResponse where

/-- Payload of Stat. -/
structure StateRequest where

/-- The information of a node, as reported by Stat. -/
structure NodeStat where
  address : String
  status : String
  keyCount : Int

/-- Payload of the response of Stat. -/
structure StateResponse where
  nodes : List NodeStat

/-- The remote behaviour reachable through an established `rpc.Client`
session: one handler per service method, each returning a typed response
or an error string. -/
structure Transport where
  callGet : GetRequest → Except String GetResponse
  callPut : PutRequest → Except String PutResponse
  callDelete : DeleteRequest → Except String DeleteResponse
  callStat : StateRequest → Except String StateResponse

/-- The `SwimringClient` structure: address, port, the optional
connection, and the two consistency levels. -/
structure SwimringClient where
  address : String
  port : Int
  client : Option Transport
  readLevel : String
  writeLevel : String

/-- Embedding of `NewSwimringClient`: both levels default to `ALL`; the
`client` field is not assigned, hence `nil` (`none`). -/
def NewSwimringClient (address : String) (port : Int) : SwimringClient :=
  { address := address
    port := port
    client := none
    readLevel := ALL
    writeLevel := ALL }

/-- Embedding of `(*SwimringClient).SetReadLevel`. -/
def SetReadLevel (c : SwimringClient) (level : String) : SwimringClient :=
  { c with readLevel := level }

/-- Embedding of `(*SwimringClient).SetWriteLevel`. -/
def SetWriteLevel (c : SwimringClient) (level : String) : SwimringClient :=
  { c with writeLevel := level }

/-- Embedding of `(*SwimringClient).Get`: fail with "not connected" when
no session exists (issuing no call), otherwise invoke `SwimRing.Get` with
the read level and return the value of the response.  The first component
is the client after the call, the last the invoked service methods. -/
def SwimringClient.Get (c : SwimringClient) (key : String) :
    SwimringClient × Except String String × List String :=
  match c.client with
  | none => (c, Except.error "not connected", [])
  | some conn =>
    match conn.callGet { level := c.readLevel, key := key } with
    | Except.error e => (c, Except.error e, [GetOp])
    | Except.ok resp => (c, Except.ok resp.value, [GetOp])

/-- Embedding of `(*SwimringClient).Put`: fail with "not connected" when
no session exists (issuing no call), otherwise invoke `SwimRing.Put` with
the write level. -/
def SwimringClient.Put (c : SwimringClient) (key value : String) :
    SwimringClient × Except String Unit × List String :=
  match c.client with
  | none => (c, Except.error "not connected", [])
  | some conn =>
    match conn.callPut { level := c.writeLevel, key := key, value := value } with
    | Except.error e => (c, Except.error e, [PutOp])
    | Except.ok _ => (c, Except.ok (), [PutOp])

/-- Embedding of `(*SwimringClient).Delete`: fail with "not connected"
when no session exists (issuing no call), otherwise invoke
`SwimRing.Delete` with the write level. -/
def SwimringClient.Delete (c : SwimringClient) (key : String) :
    SwimringClient × Except String Unit × List String :=
  match c.client with
  | none => (c, Except.error "not connected", [])
  | some conn =>
    match conn.callDelete { level := c.writeLevel, key := key } with
    | Except.error e => (c, Except.error e, [DeleteOp])
    | Except.ok _ => (c, Except.ok (), [DeleteOp])

/-- Embedding of `(*SwimringClient).Stat`: fail with "not connected" when
no session exists (issuing no call), otherwise invoke `SwimRing.Stat` and
return the node list of the response. -/
def SwimringClient.Stat (c : SwimringClient) :
    SwimringClient × Except String (List NodeStat) × List String :=
  match c.client with
  | none => (c, Except.error "not connected", [])
  | some conn =>
    match conn.callStat {} with
    | Except.error e => (c, Except.error e, [StatOp])
    | Except.ok resp => (c, Except.ok resp.nodes, [StatOp])

/-! ## Lookup and Update lemmas -/

theorem lookup_mem {vc : VectorClock} {n : String} {c : Int}
    (h : VectorClock.lookup vc n = some c) : (n, c) ∈ vc := by
  induction vc with
  | nil => simp [VectorClock.lookup] at h
  | cons e rest ih =>
    obtain ⟨m, d⟩ := e
    by_cases hm : m = n
    · subst hm
      simp [VectorClock.lookup] at h
      subst h
      exact List.mem_cons_self _ _
    · simp [VectorClock.lookup, hm] at h
      exact List.mem_cons_of_mem _ (ih h)

theorem lookup_isSome_of_mem {vc : VectorClock} {n : String} {c : Int}
    (h : (n, c) ∈ vc) : (VectorClock.lookup vc n).isSome := by
  induction vc with
  | nil => simp at h
  | cons e rest ih =>
    obtain ⟨m, d⟩ := e
    by_cases hm : m = n
    · subst hm
      simp [VectorClock.lookup]
    · rcases List.mem_cons.mp h with h1 | h1
      · exact absurd (congrArg Prod.fst h1).symm hm
      · simpa [VectorClock.lookup, hm] using ih h1

theorem mem_lookup_of_nodup {vc : VectorClock} {n : String} {c : Int}
    (hnd : NodupKeys vc) (h : (n, c) ∈ vc) : VectorClock.lookup vc n = some c := by
  induction vc with
  | nil => simp at h
  | cons e rest ih =>
    obtain ⟨m, d⟩ := e
    rcases List.mem_cons.mp h with h1 | h1
    · obtain ⟨h2, h3⟩ := Prod.mk.injEq .. ▸ h1.symm
      simp [VectorClock.lookup, h2.symm, h3.symm]
    · have hm : m ≠ n := by
        intro hmn
        subst hmn
        have : m ∈ rest.map Prod.fst := List.mem_map_of_mem Prod.fst h1
        exact (List.nodup_cons.mp hnd).1 this
      have hnd' : NodupKeys rest := (List.nodup_cons.mp hnd).2
      simp [VectorClock.lookup, hm]
      exact ih hnd' h1

theorem lookup_eq_none_iff {vc : VectorClock} {n : String} :
    VectorClock.lookup vc n = none ↔ n ∉ vc.map Prod.fst := by
  induction vc with
  | nil => simp [VectorClock.lookup]
  | cons e rest ih =>
    obtain ⟨m, d⟩ := e
    by_cases hm : m = n
    · subst hm
      simp [VectorClock.lookup]
    · simp [VectorClock.lookup, hm, ih, Ne.symm hm]

theorem counterOf_eq_of_lookup {vc : VectorClock} {n : String} {c : Int}
    (h : VectorClock.lookup vc n = some c) : counterOf vc n = c := by
  simp [counterOf, h]

theorem counterOf_eq_zero_of_lookup_none {vc : VectorClock} {n : String}
    (h : VectorClock.lookup vc n = none) : counterOf vc n = 0 := by
  simp [counterOf, h]

theorem counterOf_nonneg {vc : VectorClock} (hp : PosCounters vc) (n : String) :
    0 ≤ counterOf vc n := by
  rcases h : VectorClock.lookup vc n with _ | c
  · simp [counterOf, h]
  · have := hp _ (lookup_mem h)
    simp only [counterOf, h, Option.getD_some]
    omega

theorem lookup_Update_self (vc : VectorClock) (n : String) :
    VectorClock.lookup (VectorClock.Update vc n) n = some (counterOf vc n + 1) := by
  induction vc with
  | nil => simp [VectorClock.Update, VectorClock.lookup, counterOf]
  | cons e rest ih =>
    obtain ⟨m, d⟩ := e
    by_cases hm : m = n
    · subst hm
      simp [VectorClock.Update, VectorClock.lookup, counterOf]
    · simp [VectorClock.Update, VectorClock.lookup, hm, counterOf, ih]

theorem lookup_Update_other {vc : VectorClock} {n m : String} (h : m ≠ n) :
    VectorClock.lookup (VectorClock.Update vc n) m = VectorClock.lookup vc m := by
  induction vc with
  | nil => simp [VectorClock.Update, VectorClock.lookup, Ne.symm h]
  | cons e rest ih =>
    obtain ⟨k, d⟩ := e
    by_cases hk : k = n
    · subst hk
      simp [VectorClock.Update, VectorClock.lookup, Ne.symm h]
    · by_cases hkm : k = m
      · subst hkm
        simp [VectorClock.Update, VectorClock.lookup, hk]
      · simp [VectorClock.Update, VectorClock.lookup, hk, hkm, ih]

theorem counterOf_Update (vc : VectorClock) (n m : String) :
    counterOf (VectorClock.Update vc n) m =
      if n = m then counterOf vc m + 1 else counterOf vc m := by
  by_cases h : n = m
  · subst h
    simp [counterOf, lookup_Update_self]
  · simp [h, counterOf, lookup_Update_other (fun hmn => h hmn.symm)]

theorem lookup_foldl_Update_of_not_mem {us : List String} {n : String}
    (h : n ∉ us) (vc : VectorClock) :
    VectorClock.lookup (us.foldl VectorClock.Update vc) n = VectorClock.lookup vc n := by
  induction us generalizing vc with
  | nil => rfl
  | cons u us ih =>
    have hn : n ∉ us := fun hm => h (List.mem_cons_of_mem _ hm)
    have hu : n ≠ u := fun he => h (he ▸ List.mem_cons_self _ _)
    calc VectorClock.lookup (us.foldl VectorClock.Update (VectorClock.Update vc u)) n
        = VectorClock.lookup (VectorClock.Update vc u) n := ih hn _
      _ = VectorClock.lookup vc n := lookup_Update_other hu

theorem counterOf_le_foldl_Update (us : List String) (vc : VectorClock) (n : String) :
    counterOf vc n ≤ counterOf (us.foldl VectorClock.Update vc) n := by
  induction us generalizing vc with
  | nil => exact le_refl _
  | cons u us ih =>
    refine le_trans ?_ (ih (VectorClock.Update vc u))
    rw [counterOf_Update]
    split <;> omega

theorem counterOf_lt_foldl_Update_of_mem {us : List String} {n : String}
    (h : n ∈ us) (vc : VectorClock) :
    counterOf vc n < counterOf (us.foldl VectorClock.Update vc) n := by
  induction us generalizing vc with
  | nil => simp at h
  | cons u us ih =>
    by_cases hu : n ∈ us
    · refine lt_of_le_of_lt ?_ (ih hu (VectorClock.Update vc u))
      rw [counterOf_Update]
      split <;> omega
    · have hun : u = n := by
        rcases List.mem_cons.mp h with h1 | h1
        · exact h1.symm
        · exact absurd h1 hu
      refine lt_of_lt_of_le ?_ (counterOf_le_foldl_Update us (VectorClock.Update vc u) n)
      rw [counterOf_Update, if_pos hun]
      omega

theorem lookup_foldl_Update_isSome_of_mem {us : List String} {n : String}
    (h : n ∈ us) (vc : VectorClock) :
    (VectorClock.lookup (us.foldl VectorClock.Update vc) n).isSome := by
  induction us generalizing vc with
  | nil => simp at h
  | cons u us ih =>
    by_cases hu : n ∈ us
    · exact ih hu _
    · have hun : u = n := by
        rcases List.mem_cons.mp h with h1 | h1
        · exact h1.symm
        · exact absurd h1 hu
      subst hun
      have hbase : (VectorClock.lookup (VectorClock.Update vc u) u).isSome := by
        rw [lookup_Update_self]
        rfl
      clear h ih
      induction us generalizing vc with
      | nil => simpa using hbase
      | cons w ws ih2 =>
        have hw : u ∉ ws := fun hm => hu (List.mem_cons_of_mem _ hm)
        have hwu : u ≠ w := fun he => hu (he ▸ List.mem_cons_self _ _)
        simp only [List.foldl_cons]
        rw [lookup_foldl_Update_of_not_mem hw, lookup_Update_other hwu]
        exact hbase

/-! ## Characterizations of the Compare flags -/

theorem isOlderFlag_iff {A B : VectorClock} :
    isOlderFlag A B = true ↔
      ∃ e ∈ B, (∃ c, VectorClock.lookup A e.1 = some c ∧ c < e.2) ∨
        VectorClock.lookup A e.1 = none := by
  rw [isOlderFlag, List.any_eq_true]
  refine exists_congr fun e => and_congr_right fun _ => ?_
  rcases h : VectorClock.lookup A e.1 with _ | c <;> simp [h]

theorem isNewerFirstFlag_iff {A B : VectorClock} :
    isNewerFirstFlag A B = true ↔
      ∃ e ∈ B, ∃ c, VectorClock.lookup A e.1 = some c ∧ e.2 < c := by
  rw [isNewerFirstFlag, List.any_eq_true]
  refine exists_congr fun e => and_congr_right fun _ => ?_
  rcases h : VectorClock.lookup A e.1 with _ | c <;> simp [h]

theorem isNewerSecondFlag_iff {A B : VectorClock} :
    isNewerSecondFlag A B = true ↔ ∃ e ∈ A, VectorClock.lookup B e.1 = none := by
  rw [isNewerSecondFlag, List.any_eq_true]
  refine exists_congr fun e => and_congr_right fun _ => ?_
  simp [Option.isNone_iff_eq_none]

theorem isNewerFlag_iff {A B : VectorClock} :
    isNewerFlag A B = true ↔
      (∃ e ∈ B, ∃ c, VectorClock.lookup A e.1 = some c ∧ e.2 < c) ∨
        ∃ e ∈ A, VectorClock.lookup B e.1 = none := by
  rw [isNewerFlag, Bool.or_eq_true, isNewerFirstFlag_iff, isNewerSecondFlag_iff]

theorem isNewerFlag_eq_isOlderFlag_swap {A B : VectorClock}
    (hA : NodupKeys A) (hB : NodupKeys B) :
    isNewerFlag A B = isOlderFlag B A := by
  refine Bool.eq_iff_iff.mpr ?_
  rw [isNewerFlag_iff, isOlderFlag_iff]
  constructor
  · rintro (⟨e, heB, c, hc, hlt⟩ | ⟨e, heA, hnone⟩)
    · refine ⟨(e.1, c), lookup_mem hc, Or.inl ⟨e.2, ?_, hlt⟩⟩
      exact mem_lookup_of_nodup hB ((Prod.mk.eta (p := e)).symm ▸ heB)
    · exact ⟨e, heA, Or.inr hnone⟩
  · rintro ⟨e, heA, ⟨d, hd, hlt⟩ | hnone⟩
    · refine Or.inl ⟨(e.1, d), lookup_mem hd, e.2, ?_, hlt⟩
      exact mem_lookup_of_nodup hA ((Prod.mk.eta (p := e)).symm ▸ heA)
    · exact Or.inr ⟨e, heA, hnone⟩

theorem isOlderFlag_iff_exists_counter {A B : VectorClock}
    (hB : NodupKeys B) (pA : PosCounters A) (pB : PosCounters B) :
    isOlderFlag A B = true ↔ ∃ n, counterOf A n < counterOf B n := by
  rw [isOlderFlag_iff]
  constructor
  · rintro ⟨e, heB, ⟨c, hc, hlt⟩ | hnone⟩
    · refine ⟨e.1, ?_⟩
      rw [counterOf_eq_of_lookup hc,
        counterOf_eq_of_lookup (mem_lookup_of_nodup hB ((Prod.mk.eta (p := e)).symm ▸ heB))]
      exact hlt
    · refine ⟨e.1, ?_⟩
      rw [counterOf_eq_zero_of_lookup_none hnone,
        counterOf_eq_of_lookup (mem_lookup_of_nodup hB ((Prod.mk.eta (p := e)).symm ▸ heB))]
      exact lt_of_lt_of_le Int.zero_lt_one (pB e heB)
  · rintro ⟨n, hlt⟩
    have hBn : 0 < counterOf B n := lt_of_le_of_lt (counterOf_nonneg pA n) hlt
    rcases hb : VectorClock.lookup B n with _ | d
    · rw [counterOf_eq_zero_of_lookup_none hb] at hBn
      exact absurd hBn (lt_irrefl 0)
    · have hd : counterOf B n = d := counterOf_eq_of_lookup hb
      refine ⟨(n, d), lookup_mem hb, ?_⟩
      rcases ha : VectorClock.lookup A n with _ | c
      · exact Or.inr rfl
      · refine Or.inl ⟨c, rfl, ?_⟩
        have hc : counterOf A n = c := counterOf_eq_of_lookup ha
        show c < d
        omega

theorem isNewerFlag_iff_exists_counter {A B : VectorClock}
    (hB : NodupKeys B) (pA : PosCounters A) (pB : PosCounters B) :
    isNewerFlag A B = true ↔ ∃ n, counterOf B n < counterOf A n := by
  rw [isNewerFlag_iff]
  constructor
  · rintro (⟨e, heB, c, hc, hlt⟩ | ⟨e, heA, hnone⟩)
    · refine ⟨e.1, ?_⟩
      rw [counterOf_eq_of_lookup hc,
        counterOf_eq_of_lookup (mem_lookup_of_nodup hB ((Prod.mk.eta (p := e)).symm ▸ heB))]
      exact hlt
    · refine ⟨e.1, ?_⟩
      rw [counterOf_eq_zero_of_lookup_none hnone]
      have hs := lookup_isSome_of_mem ((Prod.mk.eta (p := e)).symm ▸ heA)
      rcases ha : VectorClock.lookup A e.1 with _ | c
      · rw [ha] at hs
        exact absurd hs (by simp)
      · rw [counterOf_eq_of_lookup ha]
        exact lt_of_lt_of_le Int.zero_lt_one (pA _ (lookup_mem ha))
  · rintro ⟨n, hlt⟩
    have hAn : 0 < counterOf A n := lt_of_le_of_lt (counterOf_nonneg pB n) hlt
    rcases ha : VectorClock.lookup A n with _ | c
    · rw [counterOf_eq_zero_of_lookup_none ha] at hAn
      exact absurd hAn (lt_irrefl 0)
    · have hc : counterOf A n = c := counterOf_eq_of_lookup ha
      rcases hb : VectorClock.lookup B n with _ | d
      · exact Or.inr ⟨(n, c), lookup_mem ha, hb⟩
      · have hd : counterOf B n = d := counterOf_eq_of_lookup hb
        refine Or.inl ⟨(n, d), lookup_mem hb, c, ha, ?_⟩
        show d < c
        omega

/-! ## Claim theorems -/

/-- Claim C6: for every vector clock and node ID, `Update(nodeID)` never
fails (it is a total function) and has exactly this effect: an existing
entry's counter is incremented by one, an absent entry is created with
counter `1`, and no other node's entry changes. -/
theorem c6_Update_effect (vc : VectorClock) (nodeID : String) :
    (∀ c, VectorClock.lookup vc nodeID = some c →
      VectorClock.lookup (VectorClock.Update vc nodeID) nodeID = some (c + 1)) ∧
    (VectorClock.lookup vc nodeID = none →
      VectorClock.lookup (VectorClock.Update vc nodeID) nodeID = some 1) ∧
    (∀ m, m ≠ nodeID → VectorClock.lookup (VectorClock.Update vc nodeID) m =
      VectorClock.lookup vc m) := by
  refine ⟨?_, ?_, fun m hm => lookup_Update_other hm⟩
  · intro c hc
    rw [lookup_Update_self, counterOf_eq_of_lookup hc]
  · intro hc
    rw [lookup_Update_self, counterOf_eq_zero_of_lookup_none hc, zero_add]

/-- Witness for C6: a present entry is bumped from 3 to 4, an absent entry
is created at 1, and an unrelated entry is untouched. -/
theorem c6_Update_effect_witness :
    VectorClock.lookup (VectorClock.Update [("a", 3)] "a") "a" = some 4 ∧
    VectorClock.lookup (VectorClock.Update [("a", 3)] "b") "b" = some 1 ∧
    VectorClock.lookup (VectorClock.Update [("a", 3)] "b") "a" = some 3 :=
  ⟨(c6_Update_effect [("a", 3)] "a").1 3 (by decide),
   (c6_Update_effect [("a", 3)] "b").2.1 (by decide),
   (c6_Update_effect [("a", 3)] "b").2.2 "a" (by decide)⟩

/-- Claim C7: the tokenizer maps `put "hello world" value` to
`["put", "hello world", "value"]` and `get key1` to `["get", "key1"]`. -/
theorem c7_tokenizer_examples :
    SafeSplit (String.toList "put \"hello world\" value") =
      [String.toList "put", String.toList "hello world", String.toList "value"] ∧
    SafeSplit (String.toList "get key1") =
      [String.toList "get", String.toList "key1"] := by
  exact ⟨by decide, by decide⟩

/-- Claim C9: a newly constructed client has both tiers set to `ALL`, and
the two setters each change only their own tier, leaving the other tier and
the address, port and connection fields unchanged. -/
theorem c9_levels (address : String) (port : Int) (c : SwimringClient) (level : String) :
    (NewSwimringClient address port).readLevel = ALL ∧
    (NewSwimringClient address port).writeLevel = ALL ∧
    (SetReadLevel c level).readLevel = level ∧
    (SetReadLevel c level).writeLevel = c.writeLevel ∧
    (SetReadLevel c level).address = c.address ∧
    (SetReadLevel c level).port = c.port ∧
    (SetReadLevel c level).client = c.client ∧
    (SetWriteLevel c level).writeLevel = level ∧
    (SetWriteLevel c level).readLevel = c.readLevel ∧
    (SetWriteLevel c level).address = c.address ∧
    (SetWriteLevel c level).port = c.port ∧
    (SetWriteLevel c level).client = c.client :=
  ⟨rfl, rfl, rfl, rfl, rfl, rfl, rfl, rfl, rfl, rfl, rfl, rfl⟩

/-- Claim C8: on a client without an established session, `Get`, `Put`,
`Delete` and `Stat` each fail immediately with the "not connected" error,
issue no remote call (empty call log), and leave the client unchanged. -/
theorem c8_not_connected (c : SwimringClient) (key value : String)
    (h : c.client = none) :
    SwimringClient.Get c key = (c, Except.error "not connected", []) ∧
    SwimringClient.Put c key value = (c, Except.error "not connected", []) ∧
    SwimringClient.Delete c key = (c, Except.error "not connected", []) ∧
    SwimringClient.Stat c = (c, Except.error "not connected", []) := by
  obtain ⟨a, p, cl, r, w⟩ := c
  cases h
  exact ⟨rfl, rfl, rfl, rfl⟩

/-- Witness for C8: the freshly constructed client has no session, and all
four operations fail with "not connected" without any remote call. -/
theorem c8_not_connected_witness :
    (NewSwimringClient "127.0.0.1" 7000).client = none ∧
    (SwimringClient.Get (NewSwimringClient "127.0.0.1" 7000) "k" =
      (NewSwimringClient "127.0.0.1" 7000, Except.error "not connected", []) ∧
    SwimringClient.Put (NewSwimringClient "127.0.0.1" 7000) "k" "v" =
      (NewSwimringClient "127.0.0.1" 7000, Except.error "not connected", []) ∧
    SwimringClient.Delete (NewSwimringClient "127.0.0.1" 7000) "k" =
      (NewSwimringClient "127.0.0.1" 7000, Except.error "not connected", []) ∧
    SwimringClient.Stat (NewSwimringClient "127.0.0.1" 7000) =
      (NewSwimringClient "127.0.0.1" 7000, Except.error "not connected", [])) :=
  ⟨rfl, c8_not_connected (NewSwimringClient "127.0.0.1" 7000) "k" "v" rfl⟩

/-- Claim C5: updating the same node twice yields a vector that compares
NEWER than the original; the counter for that node strictly increases (by
two) and every other entry is unchanged. -/
theorem c5_double_Update_newer (A : VectorClock) (n : String) (hA : NodupKeys A) :
    VectorClock.Compare (VectorClock.Update (VectorClock.Update A n) n) A = "NEWER" ∧
    counterOf (VectorClock.Update (VectorClock.Update A n) n) n = counterOf A n + 2 ∧
    ∀ m, m ≠ n → VectorClock.lookup (VectorClock.Update (VectorClock.Update A n) n) m =
      VectorClock.lookup A m := by
  set A2 := VectorClock.Update (VectorClock.Update A n) n with hA2
  have hcnt : counterOf A2 n = counterOf A n + 2 := by
    rw [hA2, counterOf_Update, if_pos rfl, counterOf_Update, if_pos rfl]
    ring
  have hframe : ∀ m, m ≠ n → VectorClock.lookup A2 m = VectorClock.lookup A m := by
    intro m hm
    rw [hA2, lookup_Update_other hm, lookup_Update_other hm]
  have hlook : VectorClock.lookup A2 n = some (counterOf A n + 2) := by
    have := lookup_Update_self (VectorClock.Update A n) n
    rw [← hA2] at this
    rw [this, counterOf_Update, if_pos rfl]
    congr 1
    ring
  have hNew : isNewerFlag A2 A = true := by
    rw [isNewerFlag_iff]
    rcases hb : VectorClock.lookup A n with _ | c
    · exact Or.inr ⟨(n, counterOf A n + 2), lookup_mem hlook, hb⟩
    · refine Or.inl ⟨(n, c), lookup_mem hb, counterOf A n + 2, hlook, ?_⟩
      have hc : counterOf A n = c := counterOf_eq_of_lookup hb
      show c < counterOf A n + 2
      omega
  have hOld : isOlderFlag A2 A = false := by
    rw [Bool.eq_false_iff]
    intro hcontra
    rw [isOlderFlag_iff] at hcontra
    obtain ⟨e, heA, hcase⟩ := hcontra
    have hel : VectorClock.lookup A e.1 = some e.2 :=
      mem_lookup_of_nodup hA ((Prod.mk.eta (p := e)).symm ▸ heA)
    by_cases hen : e.1 = n
    · have he2 : e.2 = counterOf A n := by
        rw [← hen]
        exact (counterOf_eq_of_lookup hel).symm
      rcases hcase with ⟨c, hc, hlt⟩ | hnone
      · rw [hen, hlook] at hc
        rw [he2] at hlt
        injection hc with hval
        omega
      · rw [hen, hlook] at hnone
        exact Option.noConfusion hnone
    · rcases hcase with ⟨c, hc, hlt⟩ | hnone
      · rw [hframe e.1 hen, hel] at hc
        injection hc with hval
        omega
      · rw [hframe e.1 hen, hel] at hnone
        exact Option.noConfusion hnone
  refine ⟨?_, hcnt, hframe⟩
  rw [VectorClock.Compare, hNew, hOld]
  rfl

/-- Witness for C5: updating node "a" twice on the clock `[("a", 1)]`. -/
theorem c5_double_Update_newer_witness :
    NodupKeys [("a", 1)] ∧
    (VectorClock.Compare (VectorClock.Update (VectorClock.Update [("a", 1)] "a") "a")
        [("a", 1)] = "NEWER" ∧
      counterOf (VectorClock.Update (VectorClock.Update [("a", 1)] "a") "a") "a" =
        counterOf [("a", 1)] "a" + 2 ∧
      ∀ m, m ≠ "a" →
        VectorClock.lookup (VectorClock.Update (VectorClock.Update [("a", 1)] "a") "a") m =
          VectorClock.lookup [("a", 1)] m) :=
  ⟨by decide, c5_double_Update_newer [("a", 1)] "a" (by decide)⟩

/-- Claim C4: two copies of a common ancestor updated at least once for
each node of two non-empty disjoint node sets (the nodes listed in `us1`,
respectively `us2`) compare as CONCURRENT. -/
theorem c4_disjoint_updates_concurrent (C : VectorClock) (us1 us2 : List String)
    (h1 : us1 ≠ []) (h2 : us2 ≠ [])
    (hdisj : ∀ a ∈ us1, ∀ b ∈ us2, a ≠ b) :
    VectorClock.Compare (us1.foldl VectorClock.Update C) (us2.foldl VectorClock.Update C)
      = "CONCURRENT" := by
  set A := us1.foldl VectorClock.Update C with hAdef
  set B := us2.foldl VectorClock.Update C with hBdef
  obtain ⟨n1, hn1⟩ := List.exists_mem_of_ne_nil us1 h1
  obtain ⟨n2, hn2⟩ := List.exists_mem_of_ne_nil us2 h2
  have hn1B : n1 ∉ us2 := fun h => hdisj n1 hn1 n1 h rfl
  have hn2A : n2 ∉ us1 := fun h => hdisj n2 h n2 hn2 rfl
  have hlookB1 : VectorClock.lookup B n1 = VectorClock.lookup C n1 :=
    lookup_foldl_Update_of_not_mem hn1B C
  have hlookA2 : VectorClock.lookup A n2 = VectorClock.lookup C n2 :=
    lookup_foldl_Update_of_not_mem hn2A C
  have hcB1 : counterOf B n1 = counterOf C n1 := by
    rw [counterOf, hlookB1, counterOf]
  have hcA2 : counterOf A n2 = counterOf C n2 := by
    rw [counterOf, hlookA2, counterOf]
  have hltA1 : counterOf C n1 < counterOf A n1 := counterOf_lt_foldl_Update_of_mem hn1 C
  have hltB2 : counterOf C n2 < counterOf B n2 := counterOf_lt_foldl_Update_of_mem hn2 C
  have hsomeA1 : (VectorClock.lookup A n1).isSome :=
    lookup_foldl_Update_isSome_of_mem hn1 C
  have hsomeB2 : (VectorClock.lookup B n2).isSome :=
    lookup_foldl_Update_isSome_of_mem hn2 C
  have hNew : isNewerFlag A B = true := by
    rw [isNewerFlag_iff]
    rcases ha : VectorClock.lookup A n1 with _ | c
    · rw [ha] at hsomeA1
      exact absurd hsomeA1 (by simp)
    · have hc : counterOf A n1 = c := counterOf_eq_of_lookup ha
      rcases hb : VectorClock.lookup B n1 with _ | d
      · exact Or.inr ⟨(n1, c), lookup_mem ha, hb⟩
      · have hd : counterOf B n1 = d := counterOf_eq_of_lookup hb
        refine Or.inl ⟨(n1, d), lookup_mem hb, c, ha, ?_⟩
        show d < c
        omega
  have hOld : isOlderFlag A B = true := by
    rw [isOlderFlag_iff]
    rcases hb : VectorClock.lookup B n2 with _ | d
    · rw [hb] at hsomeB2
      exact absurd hsomeB2 (by simp)
    · have hd : counterOf B n2 = d := counterOf_eq_of_lookup hb
      refine ⟨(n2, d), lookup_mem hb, ?_⟩
      rcases hax : VectorClock.lookup A n2 with _ | c
      · exact Or.inr rfl
      · have hc : counterOf A n2 = c := counterOf_eq_of_lookup hax
        refine Or.inl ⟨c, rfl, ?_⟩
        show c < d
        omega
  rw [VectorClock.Compare, hNew, hOld]
  rfl

/-- Witness for C4: the empty ancestor updated once at "a" in one copy and
once at "b" in the other. -/
theorem c4_disjoint_updates_concurrent_witness :
    (["a"] : List String) ≠ [] ∧ (["b"] : List String) ≠ [] ∧
    (∀ a ∈ (["a"] : List String), ∀ b ∈ (["b"] : List String), a ≠ b) ∧
    VectorClock.Compare ((["a"] : List String).foldl VectorClock.Update [])
      ((["b"] : List String).foldl VectorClock.Update []) = "CONCURRENT" :=
  ⟨by decide, by decide, by decide,
   c4_disjoint_updates_concurrent [] ["a"] ["b"] (by decide) (by decide) (by decide)⟩

/-- Claim C1: on well-formed vector clocks (unique keys, counters at least
one — every clock built through `Update` is of this shape), `Compare`
classifies exactly per the absence-is-zero definitions of the
specification: EQUAL iff all effective counters match, NEWER iff all of
`A`'s effective counters dominate `B`'s with one strictly greater, OLDER
symmetrically, and CONCURRENT iff the vectors differ but neither strict
order holds. -/
theorem c1_Compare_matches_spec (A B : VectorClock)
    (_hA : NodupKeys A) (hB : NodupKeys B)
    (pA : PosCounters A) (pB : PosCounters B) :
    (VectorClock.Compare A B = "EQUAL" ↔ specEQUAL A B) ∧
    (VectorClock.Compare A B = "NEWER" ↔ specNEWER A B) ∧
    (VectorClock.Compare A B = "OLDER" ↔ specNEWER B A) ∧
    (VectorClock.Compare A B = "CONCURRENT" ↔ specCONCURRENT A B) := by
  have hN := isNewerFlag_iff_exists_counter hB pA pB
  have hO := isOlderFlag_iff_exists_counter hB pA pB
  cases hx : isNewerFlag A B <;> cases hy : isOlderFlag A B <;>
    rw [hx] at hN <;> rw [hy] at hO
  · -- neither flag: EQUAL
    have hN' : ∀ n, counterOf A n ≤ counterOf B n := by
      intro n
      by_contra hc
      exact absurd (hN.mpr ⟨n, lt_of_not_le hc⟩) (by simp)
    have hO' : ∀ n, counterOf B n ≤ counterOf A n := by
      intro n
      by_contra hc
      exact absurd (hO.mpr ⟨n, lt_of_not_le hc⟩) (by simp)
    have hEq : specEQUAL A B := fun n => le_antisymm (hN' n) (hO' n)
    rw [VectorClock.Compare, hx, hy]
    refine ⟨iff_of_true rfl hEq, iff_of_false (by decide) ?_, iff_of_false (by decide) ?_,
      iff_of_false (by decide) ?_⟩
    · rintro ⟨-, n, hlt⟩
      exact absurd (hEq n).symm (ne_of_lt hlt)
    · rintro ⟨-, n, hlt⟩
      exact absurd (hEq n) (ne_of_lt hlt)
    · rintro ⟨hne, -, -⟩
      exact hne hEq
  · -- only isOlder: OLDER
    obtain ⟨n0, hn0⟩ := hO.mp rfl
    have hN' : ∀ n, counterOf A n ≤ counterOf B n := by
      intro n
      by_contra hc
      exact absurd (hN.mpr ⟨n, lt_of_not_le hc⟩) (by simp)
    have hOlder : specNEWER B A := ⟨hN', n0, hn0⟩
    rw [VectorClock.Compare, hx, hy]
    refine ⟨iff_of_false (by decide) ?_, iff_of_false (by decide) ?_,
      iff_of_true rfl hOlder, iff_of_false (by decide) ?_⟩
    · intro hEq
      exact absurd (hEq n0) (ne_of_lt hn0)
    · rintro ⟨hge, -⟩
      exact absurd (hge n0) (not_le_of_lt hn0)
    · rintro ⟨-, -, hno⟩
      exact hno hOlder
  · -- only isNewer: NEWER
    obtain ⟨n0, hn0⟩ := hN.mp rfl
    have hO' : ∀ n, counterOf B n ≤ counterOf A n := by
      intro n
      by_contra hc
      exact absurd (hO.mpr ⟨n, lt_of_not_le hc⟩) (by simp)
    have hNewer : specNEWER A B := ⟨hO', n0, hn0⟩
    rw [VectorClock.Compare, hx, hy]
    refine ⟨iff_of_false (by decide) ?_, iff_of_true rfl hNewer,
      iff_of_false (by decide) ?_, iff_of_false (by decide) ?_⟩
    · intro hEq
      exact absurd (hEq n0).symm (ne_of_lt hn0)
    · rintro ⟨hge, -⟩
      exact absurd (hge n0) (not_le_of_lt hn0)
    · rintro ⟨-, hno, -⟩
      exact hno hNewer
  · -- both flags: CONCURRENT
    obtain ⟨nN, hnN⟩ := hN.mp rfl
    obtain ⟨nO, hnO⟩ := hO.mp rfl
    have hConc : specCONCURRENT A B := by
      refine ⟨?_, ?_, ?_⟩
      · intro hEq
        exact absurd (hEq nN).symm (ne_of_lt hnN)
      · rintro ⟨hge, -⟩
        exact absurd (hge nO) (not_le_of_lt hnO)
      · rintro ⟨hge, -⟩
        exact absurd (hge nN) (not_le_of_lt hnN)
    rw [VectorClock.Compare, hx, hy]
    refine ⟨iff_of_false (by decide) ?_, iff_of_false (by decide) ?_,
      iff_of_false (by decide) ?_, iff_of_true rfl hConc⟩
    · intro hEq
      exact absurd (hEq nN).symm (ne_of_lt hnN)
    · rintro ⟨hge, -⟩
      exact absurd (hge nO) (not_le_of_lt hnO)
    · rintro ⟨hge, -⟩
      exact absurd (hge nN) (not_le_of_lt hnN)

/-- Witness for C1 at the clocks `[("a", 2)]` and `[("a", 1), ("b", 1)]`. -/
theorem c1_Compare_matches_spec_witness :
    NodupKeys [("a", 2)] ∧ NodupKeys [("a", 1), ("b", 1)] ∧
    PosCounters [("a", 2)] ∧ PosCounters [("a", 1), ("b", 1)] ∧
    ((VectorClock.Compare [("a", 2)] [("a", 1), ("b", 1)] = "EQUAL" ↔
        specEQUAL [("a", 2)] [("a", 1), ("b", 1)]) ∧
      (VectorClock.Compare [("a", 2)] [("a", 1), ("b", 1)] = "NEWER" ↔
        specNEWER [("a", 2)] [("a", 1), ("b", 1)]) ∧
      (VectorClock.Compare [("a", 2)] [("a", 1), ("b", 1)] = "OLDER" ↔
        specNEWER [("a", 1), ("b", 1)] [("a", 2)]) ∧
      (VectorClock.Compare [("a", 2)] [("a", 1), ("b", 1)] = "CONCURRENT" ↔
        specCONCURRENT [("a", 2)] [("a", 1), ("b", 1)])) :=
  ⟨by decide, by decide, by decide, by decide,
   c1_Compare_matches_spec [("a", 2)] [("a", 1), ("b", 1)]
     (by decide) (by decide) (by decide) (by decide)⟩

/-- Claim C3: for well-formed key sets (unique keys, as in a Go map),
`A.Compare(B)` and `B.Compare(A)` are mirror images: NEWER and OLDER swap,
EQUAL and CONCURRENT are symmetric. -/
theorem c3_Compare_mirror (A B : VectorClock) (hA : NodupKeys A) (hB : NodupKeys B) :
    (VectorClock.Compare A B = "NEWER" ↔ VectorClock.Compare B A = "OLDER") ∧
    (VectorClock.Compare A B = "OLDER" ↔ VectorClock.Compare B A = "NEWER") ∧
    (VectorClock.Compare A B = "EQUAL" ↔ VectorClock.Compare B A = "EQUAL") ∧
    (VectorClock.Compare A B = "CONCURRENT" ↔ VectorClock.Compare B A = "CONCURRENT") := by
  have h1 : isNewerFlag A B = isOlderFlag B A := isNewerFlag_eq_isOlderFlag_swap hA hB
  have h2 : isOlderFlag A B = isNewerFlag B A := (isNewerFlag_eq_isOlderFlag_swap hB hA).symm
  cases hx : isNewerFlag B A <;> cases hy : isOlderFlag B A <;>
    rw [hx] at h2 <;> rw [hy] at h1 <;>
    rw [VectorClock.Compare, VectorClock.Compare, h1, h2, hx, hy] <;>
    exact ⟨by decide, by decide, by decide, by decide⟩

/-- Witness for C3 at the clocks `[("a", 2)]` and `[("a", 1)]`. -/
theorem c3_Compare_mirror_witness :
    NodupKeys [("a", 2)] ∧ NodupKeys [("a", 1)] ∧
    ((VectorClock.Compare [("a", 2)] [("a", 1)] = "NEWER" ↔
        VectorClock.Compare [("a", 1)] [("a", 2)] = "OLDER") ∧
      (VectorClock.Compare [("a", 2)] [("a", 1)] = "OLDER" ↔
        VectorClock.Compare [("a", 1)] [("a", 2)] = "NEWER") ∧
      (VectorClock.Compare [("a", 2)] [("a", 1)] = "EQUAL" ↔
        VectorClock.Compare [("a", 1)] [("a", 2)] = "EQUAL") ∧
      (VectorClock.Compare [("a", 2)] [("a", 1)] = "CONCURRENT" ↔
        VectorClock.Compare [("a", 1)] [("a", 2)] = "CONCURRENT")) :=
  ⟨by decide, by decide,
   c3_Compare_mirror [("a", 2)] [("a", 1)] (by decide) (by decide)⟩

/-! ## Tokenizer lemmas for unterminated quotes -/

theorem splitStep_opens (st : SplitState) (t : List Char) (q : Char)
    (hst : st.inquote = none) (hhead : t.head? = some q)
    (hq : q = squoteChar ∨ q = dquoteChar) :
    splitStep st t = { st with inquote := some q, block := t.tail ++ [' '] } := by
  obtain ⟨res, iq, blk⟩ := st
  simp only at hst
  subst hst
  simp [splitStep, hhead, hq]

theorem foldl_splitStep_result_of_no_close (ts : List (List Char)) (st : SplitState) (q : Char)
    (hst : st.inquote = some q) (hnc : ∀ i ∈ ts, i.getLast? ≠ some q) :
    (ts.foldl splitStep st).result = st.result := by
  induction ts generalizing st with
  | nil => rfl
  | cons i ts ih =>
    have hi : i.getLast? ≠ some q := hnc i (List.mem_cons_self _ _)
    have hstep : splitStep st i = { st with block := st.block ++ i ++ [' '] } := by
      obtain ⟨res, iq, blk⟩ := st
      simp only at hst
      subst hst
      simp [splitStep, hi]
    rw [List.foldl_cons, hstep]
    exact ih { st with block := st.block ++ i ++ [' '] } hst
      (fun j hj => hnc j (List.mem_cons_of_mem _ hj))

/-- Counterexample to claim C2 as stated: on the line `put "hello world`
the span opened by `"hello` is never closed, yet the tokenizer returns
exactly `["put"]` — the unterminated quoted text is absent from every
segment of the result, not accumulated into the last one. -/
theorem c2_counterexample_unterminated_text_absent :
    SafeSplit (String.toList "put \"hello world") = [String.toList "put"] ∧
    String.toList "hello world" ∉ SafeSplit (String.toList "put \"hello world") ∧
    String.toList "hello" ∉ SafeSplit (String.toList "put \"hello world") :=
  ⟨by decide, by decide, by decide⟩

/-- Claim C2 (amended): for every input line containing a quote-opening
token that is never closed by a later token ending with the same quote
character, the tokenizer silently discards the pending quoted text: it
returns exactly the segments accumulated before the opening token, without
error. -/
theorem c2_unterminated_quote_dropped (s : List Char)
    (pre post : List (List Char)) (t : List Char) (q : Char)
    (hsplit : splitOnSpace s = pre ++ t :: post)
    (hpre : (pre.foldl splitStep initSplitState).inquote = none)
    (hhead : t.head? = some q) (hq : q = squoteChar ∨ q = dquoteChar)
    (hnoclose : ∀ i ∈ post, i.getLast? ≠ some q) :
    SafeSplit s = (pre.foldl splitStep initSplitState).result := by
  rw [SafeSplit, hsplit, List.foldl_append, List.foldl_cons]
  rw [splitStep_opens _ _ _ hpre hhead hq]
  exact foldl_splitStep_result_of_no_close post _ q rfl hnoclose

/-- Witness for the amended C2 on the line `put "hello world`. -/
theorem c2_unterminated_quote_dropped_witness :
    splitOnSpace (String.toList "put \"hello world") =
      [String.toList "put"] ++ String.toList "\"hello" :: [String.toList "world"] ∧
    (([String.toList "put"]).foldl splitStep initSplitState).inquote = none ∧
    (String.toList "\"hello").head? = some dquoteChar ∧
    (dquoteChar = squoteChar ∨ dquoteChar = dquoteChar) ∧
    (∀ i ∈ [String.toList "world"], i.getLast? ≠ some dquoteChar) ∧
    SafeSplit (String.toList "put \"hello world") =
      (([String.toList "put"]).foldl splitStep initSplitState).result :=
  ⟨by decide, by decide, by decide, Or.inr rfl, by decide,
   c2_unterminated_quote_dropped (String.toList "put \"hello world")
     [String.toList "put"] [String.toList "world"] (String.toList "\"hello") dquoteChar
     (by decide) (by decide) (by decide) (Or.inr rfl) (by decide)⟩

/-- Claim C10: a whitespace-separated token of length at least two that
both begins and ends with the same quote character, scanned outside any
quoted span, is treated as only opening a span — it emits no segment and
does not close the span it opens; if no subsequent token ends with that
quote character, the quoted text is entirely absent from the result.
Concretely, `get "hi"` tokenizes to `["get"]`. -/
theorem c10_self_quoted_token_only_opens (st : SplitState) (t : List Char) (q : Char)
    (post : List (List Char))
    (hst : st.inquote = none) (_hlen : 2 ≤ t.length)
    (hhead : t.head? = some q) (_hlast : t.getLast? = some q)
    (hq : q = squoteChar ∨ q = dquoteChar)
    (hnoclose : ∀ i ∈ post, i.getLast? ≠ some q) :
    ((splitStep st t).inquote = some q ∧ (splitStep st t).result = st.result) ∧
    ((t :: post).foldl splitStep st).result = st.result ∧
    SafeSplit (String.toList "get \"hi\"") = [String.toList "get"] := by
  have hopen := splitStep_opens st t q hst hhead hq
  refine ⟨⟨by rw [hopen], by rw [hopen]⟩, ?_, by decide⟩
  rw [List.foldl_cons, hopen]
  exact foldl_splitStep_result_of_no_close post _ q rfl hnoclose

/-- Witness for C10: the token `"hi"` scanned in the initial state with no
further tokens. -/
theorem c10_self_quoted_token_only_opens_witness :
    initSplitState.inquote = none ∧ 2 ≤ (String.toList "\"hi\"").length ∧
    (String.toList "\"hi\"").head? = some dquoteChar ∧
    (String.toList "\"hi\"").getLast? = some dquoteChar ∧
    (dquoteChar = squoteChar ∨ dquoteChar = dquoteChar) ∧
    (∀ i ∈ ([] : List (List Char)), i.getLast? ≠ some dquoteChar) ∧
    (((splitStep initSplitState (String.toList "\"hi\"")).inquote = some dquoteChar ∧
        (splitStep initSplitState (String.toList "\"hi\"")).result =
          initSplitState.result) ∧
      (((String.toList "\"hi\"") :: ([] : List (List Char))).foldl splitStep
          initSplitState).result = initSplitState.result ∧
      SafeSplit (String.toList "get \"hi\"") = [String.toList "get"]) :=
  ⟨rfl, by decide, by decide, by decide, Or.inr rfl, by decide,
   c10_self_quoted_token_only_opens initSplitState (String.toList "\"hi\"") dquoteChar []
     rfl (by decide) (by decide) (by decide) (Or.inr rfl) (by decide)⟩
